import Mathlib

/-!
Shallow embedding of the waveform audio visualizer: the audio feature
extractor (`computeBands`, `computeRms`), the deterministic hash
(`hash01`), and the scatter-ring animation engine state updates
(presence hysteresis, per-segment amplitude easing, idle-time
accumulation, glow easing), together with theorems settling the
specification claims.

Byte buffers (`Uint8Array`) are modelled as `List ℕ` with entries in
`[0, 255]`; JavaScript floating-point numbers are modelled as exact
rationals `ℚ` wherever the code is pure arithmetic, and as reals `ℝ`
where `Math.sin` / `Math.sqrt` enter.
-/

namespace Waveform

/-- `lerp(a, b, t) = a + (b - a) * t` from the source. -/
def lerp {α : Type} [Ring α] (a b t : α) : α := a + (b - a) * t

/-- `clamp(v, min, max) = Math.max(min, Math.min(max, v))` from the source. -/
def clamp {α : Type} [LinearOrder α] (v lo hi : α) : α := max lo (min hi v)

/-! ## Audio feature extractor -/

/-- Start index of band `i`: `start = i * bandSize` with
`bandSize = Math.floor(len / bandCount)` (Nat division is floor). -/
def bandStart (len bandCount i : ℕ) : ℕ := i * (len / bandCount)

/-- End index of band `i`: `end = i === bandCount - 1 ? len : start + bandSize`. -/
def bandEnd (len bandCount i : ℕ) : ℕ :=
  if i = bandCount - 1 then len else bandStart len bandCount i + len / bandCount

/-- The members of band `i`: the slice `freqArray[start ... end)`. -/
def bandGroup (freqArray : List ℕ) (bandCount i : ℕ) : List ℕ :=
  (freqArray.drop (bandStart freqArray.length bandCount i)).take
    (bandEnd freqArray.length bandCount i - bandStart freqArray.length bandCount i)

/-- The value of band `i`: `sum / (end - start || 1)`; the `|| 1` makes the
denominator 1 exactly when the group is empty. -/
def bandValue (freqArray : List ℕ) (bandCount i : ℕ) : ℚ :=
  ((bandGroup freqArray bandCount i).sum : ℚ) /
    (if (bandGroup freqArray bandCount i).length = 0 then 1
     else ((bandGroup freqArray bandCount i).length : ℚ))

/-- `computeBands(freqArray, bandCount)`: one value per band. -/
def computeBands (freqArray : List ℕ) (bandCount : ℕ) : List ℚ :=
  (List.range bandCount).map fun i => bandValue freqArray bandCount i

/-- `sumSquares` accumulator of `computeRms`: each sample `s` maps to
`v = (s - 128) / 128` and contributes `v * v`. -/
def sumSquares (timeArray : List ℕ) : ℚ :=
  (timeArray.map fun s => ((((s : ℚ) - 128) / 128)) ^ 2).sum

/-- The radicand of `computeRms`: `sumSquares / len`. -/
def meanSquare (timeArray : List ℕ) : ℚ :=
  sumSquares timeArray / (timeArray.length : ℚ)

/-- `computeRms(timeArray) = Math.sqrt(sumSquares / len)`. -/
noncomputable def computeRms (timeArray : List ℕ) : ℝ :=
  Real.sqrt ((meanSquare timeArray : ℚ) : ℝ)

/-- An alternating 0/255 waveform with `k` pairs of samples. -/
def altWave : ℕ → List ℕ
  | 0 => []
  | k + 1 => 0 :: 255 :: altWave k

/-! ## Hash / noise utilities -/

/-- `hash01(x)`: `s = Math.sin(x * 12.9898 + 78.233) * 43758.5453`, returns
`s - Math.floor(s)`, i.e. the fractional part of `s`. -/
noncomputable def hash01 (x : ℝ) : ℝ :=
  Int.fract (Real.sin (x * 12.9898 + 78.233) * 43758.5453)

/-- `texturedNoise(angle, loudness)` from the source. -/
noncomputable def texturedNoise (angle loudness : ℝ) : ℝ :=
  (Real.sin (angle * 7.0) * 0.9 + Real.sin (angle * 13.0 + 0.7) * 0.55)
    * (1.5 + loudness * 6)

/-! ## Visualizer configuration

The closure variables `sensitivity`, `smoothing`, `idleSpeed`,
`radialScatterMultiplier`, `tangentialScatterMultiplier` of
`createVisualizer`, with their initial values, and the setter functions
(which assign the given value verbatim). -/

structure Config where
  sensitivity : ℚ
  smoothing : ℚ
  idleSpeed : ℚ
  radialScatterMultiplier : ℚ
  tangentialScatterMultiplier : ℚ
deriving DecidableEq, Repr

def defaultConfig : Config :=
  { sensitivity := 7.2, smoothing := 1.4, idleSpeed := 5.0,
    radialScatterMultiplier := 1.0, tangentialScatterMultiplier := 0.4 }

def setSensitivity (c : Config) (value : ℚ) : Config := { c with sensitivity := value }

def setSmoothing (c : Config) (value : ℚ) : Config := { c with smoothing := value }

def setIdleSpeed (c : Config) (value : ℚ) : Config := { c with idleSpeed := value }

def setRadialScatter (c : Config) (value : ℚ) : Config :=
  { c with radialScatterMultiplier := value }

def setTangentialScatter (c : Config) (value : ℚ) : Config :=
  { c with tangentialScatterMultiplier := value }

/-! ## Scatter ring engine state -/

/-- The persistent `scatterState` of `createVisualizer` (the unused
`idleDotOffsets` buffer, written nowhere, is omitted). -/
structure ScatterState where
  segments : ℕ
  lineAmplitude : List ℚ
  idleAnimationTime : ℚ
  audioPresence : ℚ
  smoothedGlowRadius : ℚ
  lastFrameTime : ℚ
deriving DecidableEq, Repr

/-- The freshly-constructed state: `segments = isMobile ? 100 : 140`,
amplitudes zeroed, `lastFrameTime = performance.now()` at construction
(parameter `t0`). -/
def initState (isMobile : Bool) (t0 : ℚ) : ScatterState :=
  let segs : ℕ := if isMobile then 100 else 140
  { segments := segs, lineAmplitude := List.replicate segs 0,
    idleAnimationTime := 0, audioPresence := 0,
    smoothedGlowRadius := 0, lastFrameTime := t0 }

/-- `audioThreshold = isMobile ? 0.01 : 0.02`. -/
def audioThreshold (isMobile : Bool) : ℚ := if isMobile then 0.01 else 0.02

/-- `timeVariationThreshold = isMobile ? 0.03 : 0.05`. -/
def timeVariationThreshold (isMobile : Bool) : ℚ := if isMobile then 0.03 else 0.05

/-- `hasAudioRaw = loudness > audioThreshold || (time && timeLength > 0 &&
Array.from(time).some(s => Math.abs(s / 255 - 0.5) > timeVariationThreshold))`. -/
def hasAudioRaw (isMobile : Bool) (time : Option (List ℕ)) (loudness : ℚ) : Bool :=
  decide (audioThreshold isMobile < loudness) ||
    match time with
    | none => false
    | some t =>
        decide (0 < t.length) &&
          t.any fun s => decide (timeVariationThreshold isMobile < |(s : ℚ) / 255 - 0.5|)

/-- `normalizedSmoothing = clamp(smoothing / 3, 0, 1) * mobileSmoothingReduction`. -/
def normalizedSmoothing (isMobile : Bool) (smoothing : ℚ) : ℚ :=
  clamp (smoothing / 3) 0 1 * (if isMobile then 0.7 else 1)

/-- The per-tick ease factor:
`ease = clamp(lerp(0.3, 0.01, normalizedSmoothing) + loudness * 0.15, 0.03, 0.35)`. -/
def easeFactor (isMobile : Bool) (smoothing loudness : ℚ) : ℚ :=
  clamp (lerp 0.3 0.01 (normalizedSmoothing isMobile smoothing) + loudness * 0.15)
    0.03 0.35

/-- The loudness the engine reads from a feature snapshot:
`features?.loudness || 0`. -/
def loudnessOf (features : Option (List ℕ × ℚ)) : ℚ :=
  match features with
  | none => 0
  | some f => f.2

/-- The presence-hysteresis update of `drawScatterRing`:
`targetPresence = hasAudioRaw ? 1.0 : 0.0`, asymmetric
`enterSpeed`/`exitSpeed`, and
`audioPresence = lerp(audioPresence, targetPresence, transitionSpeed)`. -/
def presenceStep (isMobile : Bool) (time : Option (List ℕ)) (loudness p : ℚ) : ℚ :=
  let targetPresence : ℚ := if hasAudioRaw isMobile time loudness then 1 else 0
  let enterSpeed : ℚ := if isMobile then 0.15 else 0.08
  let exitSpeed : ℚ := if isMobile then 0.08 else 0.04
  let transitionSpeed := if p < targetPresence then enterSpeed else exitSpeed
  lerp p targetPresence transitionSpeed

/-- Waveform sample for segment `i`: `t = i / segments`,
`idx = Math.floor(t * timeLength) % timeLength`, `sample = time[idx] / 255`;
`sample = 0.5` when no buffer is available. -/
def sampleAt (time : Option (List ℕ)) (segments i : ℕ) : ℚ :=
  match time with
  | none => 0.5
  | some t =>
      if 0 < t.length then ((t.getD (i * t.length / segments % t.length) 0 : ℕ) : ℚ) / 255
      else 0.5

/-- The target amplitude of segment `i`:
`target = mapped * sensitivity * maxAmplitude * audioPresence * mobileSensitivityBoost`
with `mapped = (sample - 0.5) * 2`. -/
def ampTarget (isMobile : Bool) (cfg : Config) (maxAmplitude presence : ℚ)
    (time : Option (List ℕ)) (segments i : ℕ) : ℚ :=
  let sample := sampleAt time segments i
  let mapped := (sample - 0.5) * 2
  let mobileSensitivityBoost : ℚ := if isMobile then 1.3 else 1
  mapped * cfg.sensitivity * maxAmplitude * presence * mobileSensitivityBoost

/-- One engine step: the state updates of `drawFrame` (delta time, idle
animation time, first-frame glow initialization), `drawGlow` (glow easing)
and `drawScatterRing` (presence hysteresis and per-segment amplitude
easing), with the canvas dimensions and the per-tick feature snapshot
`(time, loudness)` as inputs. -/
def tick (isMobile : Bool) (cfg : Config) (width height : ℚ)
    (features : Option (List ℕ × ℚ)) (now : ℚ) (s : ScatterState) : ScatterState :=
  let longestEdge := max width height
  let visualizerDiameter := longestEdge * (if isMobile then 0.4 else 0.25)
  let baseRadius := visualizerDiameter * 0.35
  let loudness := loudnessOf features
  let time : Option (List ℕ) := features.map Prod.fst
  let deltaTime := (now - s.lastFrameTime) / 1000
  let animationSpeed : ℚ := if isMobile then 1.5 else 1
  let idleTime := s.idleAnimationTime + deltaTime * animationSpeed
  let sgr0 := if s.smoothedGlowRadius = 0 then baseRadius else s.smoothedGlowRadius
  let maxGlow := baseRadius * 1.3
  let targetGlowRadius := baseRadius + loudness * cfg.sensitivity * maxGlow
  let sgr1 := lerp sgr0 targetGlowRadius 0.06
  let radius := baseRadius * 1.25
  let maxAmplitude := radius * 0.45
  let presence := presenceStep isMobile time loudness s.audioPresence
  let ease := easeFactor isMobile cfg.smoothing loudness
  let amps := (List.range s.segments).map fun i =>
    lerp (s.lineAmplitude.getD i 0)
      (ampTarget isMobile cfg maxAmplitude presence time s.segments i) ease
  { s with
    lineAmplitude := amps
    idleAnimationTime := idleTime
    audioPresence := presence
    smoothedGlowRadius := sgr1
    lastFrameTime := now }

/-- The `maxAmplitude` bound of `drawScatterRing` as a function of the
canvas dimensions: `drawFrame` passes `radius = baseRadius * 1.25` and
`maxAmplitude = radius * 0.45`. -/
def scatterMaxAmplitude (isMobile : Bool) (width height : ℚ) : ℚ :=
  max width height * (if isMobile then 0.4 else 0.25) * 0.35 * 1.25 * 0.45

/-- A run of the engine: `engineRun m cfg w h inputs ts t0 n` is the state
after `n` ticks from a fresh engine, where tick `k` receives feature
snapshot `inputs k` and timestamp `ts k`. -/
def engineRun (isMobile : Bool) (cfg : Config) (width height : ℚ)
    (inputs : ℕ → Option (List ℕ × ℚ)) (ts : ℕ → ℚ) (t0 : ℚ) : ℕ → ScatterState
  | 0 => initState isMobile t0
  | n + 1 => tick isMobile cfg width height (inputs n) (ts n)
      (engineRun isMobile cfg width height inputs ts t0 n)

/-- A run of the engine from an arbitrary starting state `s0`: tick `k`
receives the feature snapshot `inputs k` (possibly `none`, possibly a
present-but-quiet buffer) and timestamp `ts k`. -/
def runFrom (isMobile : Bool) (cfg : Config) (width height : ℚ)
    (inputs : ℕ → Option (List ℕ × ℚ)) (ts : ℕ → ℚ)
    (s0 : ScatterState) : ℕ → ScatterState
  | 0 => s0
  | n + 1 => tick isMobile cfg width height (inputs n) (ts n)
      (runFrom isMobile cfg width height inputs ts s0 n)

/-- A concrete desktop run on a 1280×1280 canvas in which every tick
receives the waveform `[0]` (a maximally deviating sample) with its exact
RMS loudness 1. -/
def loudRun : ℕ → ScatterState :=
  engineRun false defaultConfig 1280 1280 (fun _ => some ([0], 1)) (fun n => (n : ℚ)) 0

/-- The scalar trace of `audioPresence` along `loudRun`. -/
def loudPres : ℕ → ℚ
  | 0 => 0
  | n + 1 => presenceStep false (some [0]) 1 (loudPres n)

/-- The scalar trace of `lineAmplitude[0]` along `loudRun`. -/
def loudAmp : ℕ → ℚ
  | 0 => 0
  | n + 1 => lerp (loudAmp n)
      (ampTarget false defaultConfig (scatterMaxAmplitude false 1280 1280)
        (loudPres (n + 1)) (some [0]) 140 0)
      (easeFactor false defaultConfig.smoothing 1)

/-! ## Per-dot scatter geometry

The dot-placement arithmetic of the inner loop of `drawScatterRing`
(lines with `radialScatterBase` through `tangentialScatter`), over `ℝ`
because it consumes `hash01` and the idle sine oscillation. -/

/-- `mobileScatterBoost = isMobile ? 1.4 : 1.0`. -/
noncomputable def mobileScatterBoost (isMobile : Bool) : ℝ := if isMobile then 1.4 else 1.0

/-- `radialScatterBase = clamp(1.5 + amp01 * 8 + loudness * 12, 1.5, 15) * mobileScatterBoost`. -/
noncomputable def radialScatterBase (isMobile : Bool) (amp01 loudness : ℝ) : ℝ :=
  clamp (1.5 + amp01 * 8 + loudness * 12) 1.5 15 * mobileScatterBoost isMobile

/-- `tangentialScatterBase = clamp(2.0 + amp01 * 10 + loudness * 16, 2, 18) * mobileScatterBoost`. -/
noncomputable def tangentialScatterBase (isMobile : Bool) (amp01 loudness : ℝ) : ℝ :=
  clamp (2.0 + amp01 * 10 + loudness * 16) 2 18 * mobileScatterBoost isMobile

/-- `radialScatterAmount = radialScatterBase * audioPresence * radialScatterMultiplier`. -/
noncomputable def radialScatterAmount (isMobile : Bool) (amp01 loudness audioPresence radialMult : ℝ) : ℝ :=
  radialScatterBase isMobile amp01 loudness * audioPresence * radialMult

/-- `tangentialScatterAmount = tangentialScatterBase * audioPresence * tangentialScatterMultiplier`. -/
noncomputable def tangentialScatterAmount (isMobile : Bool) (amp01 loudness audioPresence tangentialMult : ℝ) : ℝ :=
  tangentialScatterBase isMobile amp01 loudness * audioPresence * tangentialMult

/-- The per-dot idle oscillation: seeded phase, speed and amplitude, sinusoidal
in `idleAnimationTime * speed`. -/
noncomputable def idleRadialOffset (isMobile : Bool) (idleSpeed idleTime : ℝ) (i d : ℕ) : ℝ :=
  let phase := hash01 ((i : ℝ) * 137.5 + (d : ℝ) * 23.7) * Real.pi * 2
  let lo : ℝ := if isMobile then 0.5 else 0.3
  let hi : ℝ := if isMobile then 1.0 else 0.7
  let baseSpeed := lo + hash01 ((i : ℝ) * 67.3 + (d : ℝ) * 41.9) * (hi - lo)
  let speed := baseSpeed * idleSpeed
  let amplitude := 2.5 + hash01 ((i : ℝ) * 89.1 + (d : ℝ) * 19.3) * 3.5
  Real.sin (idleTime * speed + phase) * amplitude

/-- `audioRadialScatter = (seed2 - 0.5) * radialScatterAmount * 0.55` with
`seed2 = hash01(i * 11.13 + d * 73.91)`. -/
noncomputable def audioRadialScatter (isMobile : Bool)
    (amp01 loudness audioPresence radialMult : ℝ) (i d : ℕ) : ℝ :=
  (hash01 ((i : ℝ) * 11.13 + (d : ℝ) * 73.91) - 0.5)
    * radialScatterAmount isMobile amp01 loudness audioPresence radialMult * 0.55

/-- The dot's final radial displacement:
`radialScatter = lerp(idleRadialOffset, audioRadialScatter, audioPresence)`. -/
noncomputable def radialScatter (isMobile : Bool) (idleSpeed idleTime : ℝ)
    (amp01 loudness audioPresence radialMult : ℝ) (i d : ℕ) : ℝ :=
  lerp (idleRadialOffset isMobile idleSpeed idleTime i d)
    (audioRadialScatter isMobile amp01 loudness audioPresence radialMult i d)
    audioPresence

/-- The dot's tangential displacement:
`tangentialScatter = (seed - 0.5) * tangentialScatterAmount` with
`seed = hash01(i * 97.31 + d * 31.77)`. -/
noncomputable def tangentialScatter (isMobile : Bool)
    (amp01 loudness audioPresence tangentialMult : ℝ) (i d : ℕ) : ℝ :=
  (hash01 ((i : ℝ) * 97.31 + (d : ℝ) * 31.77) - 0.5)
    * tangentialScatterAmount isMobile amp01 loudness audioPresence tangentialMult

/-! ## Helper lemmas: band partition arithmetic -/

theorem bandEnd_le (len b i : ℕ) (_hb : 0 < b) (hi : i < b) : bandEnd len b i ≤ len := by
  unfold bandEnd bandStart
  split
  · exact le_rfl
  · have h1 : (i + 1) * (len / b) = i * (len / b) + len / b := Nat.succ_mul i (len / b)
    have h2 : (i + 1) * (len / b) ≤ b * (len / b) := Nat.mul_le_mul_right _ hi
    have h3 : b * (len / b) ≤ len := by
      rw [Nat.mul_comm]; exact Nat.div_mul_le_self len b
    omega

theorem bandStart_le_bandEnd (len b i : ℕ) (_hb : 0 < b) (hi : i < b) :
    bandStart len b i ≤ bandEnd len b i := by
  unfold bandEnd bandStart
  split
  · rename_i hlast
    have h2 : i * (len / b) ≤ b * (len / b) := Nat.mul_le_mul_right _ (le_of_lt hi)
    have h3 : b * (len / b) ≤ len := by
      rw [Nat.mul_comm]; exact Nat.div_mul_le_self len b
    omega
  · exact Nat.le_add_right _ _

theorem bandGroup_length (s : List ℕ) (b i : ℕ) (hb : 0 < b) (hi : i < b) :
    (bandGroup s b i).length = bandEnd s.length b i - bandStart s.length b i := by
  unfold bandGroup
  rw [List.length_take, List.length_drop]
  have h := bandEnd_le s.length b i hb hi
  omega

theorem bandGroup_length_of_lt (s : List ℕ) (b i : ℕ) (h : i + 1 < b) :
    (bandGroup s b i).length = s.length / b := by
  rw [bandGroup_length s b i (by omega) (by omega)]
  unfold bandEnd bandStart
  rw [if_neg (by omega)]
  exact Nat.add_sub_cancel_left _ _

theorem bandGroup_sum_length (s : List ℕ) (b : ℕ) (hb : 0 < b) :
    (∑ j in Finset.range b, (bandGroup s b j).length) = s.length := by
  obtain ⟨k, rfl⟩ : ∃ k, b = k + 1 := ⟨b - 1, by omega⟩
  rw [Finset.sum_range_succ]
  have hlast : (bandGroup s (k + 1) k).length
      = s.length - k * (s.length / (k + 1)) := by
    rw [bandGroup_length s (k + 1) k (by omega) (by omega)]
    unfold bandEnd bandStart
    rw [if_pos (by omega)]
  have hrest : ∀ j ∈ Finset.range k, (bandGroup s (k + 1) j).length
      = s.length / (k + 1) := fun j hj =>
    bandGroup_length_of_lt s (k + 1) j (by
      have := Finset.mem_range.mp hj; omega)
  rw [Finset.sum_congr rfl hrest, Finset.sum_const, Finset.card_range, hlast,
    smul_eq_mul]
  have h2 : k * (s.length / (k + 1)) ≤ (k + 1) * (s.length / (k + 1)) :=
    Nat.mul_le_mul_right _ (by omega)
  have h3 : (k + 1) * (s.length / (k + 1)) ≤ s.length := by
    rw [Nat.mul_comm]; exact Nat.div_mul_le_self s.length (k + 1)
  omega

theorem computeBands_getD (s : List ℕ) (b i : ℕ) (hi : i < b) :
    (computeBands s b).getD i 0 = bandValue s b i := by
  unfold computeBands
  rw [List.getD_eq_getElem?_getD, List.getElem?_map, List.getElem?_range hi]
  rfl

theorem computeBands_length (s : List ℕ) (b : ℕ) : (computeBands s b).length = b := by
  simp [computeBands]

/-- C1: for every spectrum and every positive `bandCount`, `computeBands`
returns exactly `bandCount` values; the bands are the contiguous slices
`[bandStart, bandEnd)` where every band but the last has `floor(N/bandCount)`
members and consecutive bands abut; the last band's upper bound is `N`; each
band with members receives the arithmetic mean of its members; and the band
member-counts sum to `N`. -/
theorem computeBands_partition (s : List ℕ) (b i : ℕ) (hb : 0 < b) (hi : i < b) :
    (computeBands s b).length = b
    ∧ (bandGroup s b i ≠ [] →
        (computeBands s b).getD i 0 =
          ((bandGroup s b i).sum : ℚ) / ((bandGroup s b i).length : ℚ))
    ∧ (i + 1 < b → (bandGroup s b i).length = s.length / b)
    ∧ (i + 1 < b → bandEnd s.length b i = bandStart s.length b (i + 1))
    ∧ bandEnd s.length b (b - 1) = s.length
    ∧ (∑ j in Finset.range b, (bandGroup s b j).length) = s.length := by
  refine ⟨computeBands_length s b, ?_, fun h => bandGroup_length_of_lt s b i h,
    ?_, ?_, bandGroup_sum_length s b hb⟩
  · intro hne
    rw [computeBands_getD s b i hi]
    unfold bandValue
    rw [if_neg (by simpa [List.length_eq_zero] using hne)]
  · intro h
    unfold bandEnd bandStart
    rw [if_neg (by omega)]
    ring
  · unfold bandEnd
    rw [if_pos rfl]

/-- Witness for C1 at `spectrum = [1, 2, 3]`, `bandCount = 2`, band 1. -/
theorem computeBands_partition_witness :
    (computeBands [1, 2, 3] 2).length = 2
    ∧ (bandGroup [1, 2, 3] 2 1 ≠ [] →
        (computeBands [1, 2, 3] 2).getD 1 0 =
          ((bandGroup [1, 2, 3] 2 1).sum : ℚ) / ((bandGroup [1, 2, 3] 2 1).length : ℚ))
    ∧ (1 + 1 < 2 → (bandGroup [1, 2, 3] 2 1).length = ([1, 2, 3] : List ℕ).length / 2)
    ∧ (1 + 1 < 2 → bandEnd ([1, 2, 3] : List ℕ).length 2 1
        = bandStart ([1, 2, 3] : List ℕ).length 2 (1 + 1))
    ∧ bandEnd ([1, 2, 3] : List ℕ).length 2 (2 - 1) = ([1, 2, 3] : List ℕ).length
    ∧ (∑ j in Finset.range 2, (bandGroup [1, 2, 3] 2 j).length)
        = ([1, 2, 3] : List ℕ).length :=
  computeBands_partition [1, 2, 3] 2 1 (by decide) (by decide)

/-- C2 counterexample: with spectrum `[255]` and `bandCount = 2` (a
`bandCount` greater than the spectrum length) the bands are `[0, 255]`:
the last band does not fall back to 0, it receives the mean of the whole
spectrum. -/
theorem computeBands_degenerate_counterexample :
    ([255] : List ℕ).length < 2 ∧ computeBands [255] 2 = [0, 255]
    ∧ ¬ (∀ x ∈ computeBands [255] 2, x = (0 : ℚ)) := by
  have hcb : computeBands [255] 2 = [0, 255] := by
    norm_num [computeBands, bandValue, bandGroup, bandStart, bandEnd, List.range_succ]
  refine ⟨by norm_num, hcb, fun hall => ?_⟩
  have h255 : (255 : ℚ) ∈ computeBands [255] 2 := by rw [hcb]; simp
  have h0 := hall 255 h255
  norm_num at h0

/-- C2 amended: for every `bandCount` strictly greater than the spectrum
length, `computeBands` never divides by zero (the denominator of every band
is nonzero thanks to the `|| 1` fallback); every band except the last falls
back to value 0; and the last band receives the arithmetic mean of the
entire spectrum (0 when the spectrum is empty). -/
theorem computeBands_degenerate (s : List ℕ) (b i : ℕ) (hb : s.length < b) (hi : i < b) :
    (if (bandGroup s b i).length = 0 then (1 : ℚ) else ((bandGroup s b i).length : ℚ)) ≠ 0
    ∧ (i + 1 < b → (computeBands s b).getD i 0 = 0)
    ∧ ((computeBands s b).getD (b - 1) 0
        = if s.length = 0 then 0 else (s.sum : ℚ) / (s.length : ℚ)) := by
  refine ⟨?_, ?_, ?_⟩
  · split
    · exact one_ne_zero
    · rename_i hne
      exact_mod_cast Nat.cast_ne_zero.mpr hne
  · intro h
    rw [computeBands_getD s b i hi]
    have hlen : (bandGroup s b i).length = 0 := by
      rw [bandGroup_length_of_lt s b i h, Nat.div_eq_of_lt hb]
    have hnil : bandGroup s b i = [] := List.length_eq_zero.mp hlen
    unfold bandValue
    rw [hnil]
    norm_num
  · rw [computeBands_getD s b (b - 1) (by omega)]
    have hstart : bandStart s.length b (b - 1) = 0 := by
      unfold bandStart
      rw [Nat.div_eq_of_lt hb, Nat.mul_zero]
    have hgroup : bandGroup s b (b - 1) = s := by
      unfold bandGroup bandEnd
      rw [if_pos rfl, hstart]
      simp
    unfold bandValue
    rw [hgroup]
    split
    · rename_i hzero
      rw [List.length_eq_zero.mp hzero]
      norm_num
    · rfl

/-- Witness for `computeBands_degenerate` at `spectrum = [255]`,
`bandCount = 2`, band 0. -/
theorem computeBands_degenerate_witness :
    (if (bandGroup [255] 2 0).length = 0 then (1 : ℚ)
      else ((bandGroup [255] 2 0).length : ℚ)) ≠ 0
    ∧ (0 + 1 < 2 → (computeBands [255] 2).getD 0 0 = 0)
    ∧ ((computeBands [255] 2).getD (2 - 1) 0
        = if ([255] : List ℕ).length = 0 then 0
          else (([255] : List ℕ).sum : ℚ) / (([255] : List ℕ).length : ℚ)) :=
  computeBands_degenerate [255] 2 0 (by norm_num) (by norm_num)

/-! ## Helper lemmas: RMS loudness -/

theorem sumSquares_cons (x : ℕ) (xs : List ℕ) :
    sumSquares (x :: xs) = (((x : ℚ) - 128) / 128) ^ 2 + sumSquares xs := by
  simp [sumSquares]

theorem sumSquares_nonneg (L : List ℕ) : 0 ≤ sumSquares L := by
  induction L with
  | nil => simp [sumSquares]
  | cons x xs ih =>
    rw [sumSquares_cons]
    exact add_nonneg (sq_nonneg _) ih

theorem sumSquares_le_length (L : List ℕ) (hB : ∀ s ∈ L, s ≤ 255) :
    sumSquares L ≤ (L.length : ℚ) := by
  induction L with
  | nil => simp [sumSquares]
  | cons x xs ih =>
    rw [sumSquares_cons]
    have hx : x ≤ 255 := hB x (by simp)
    have hx0 : (0 : ℚ) ≤ (x : ℚ) := Nat.cast_nonneg x
    have hx255 : (x : ℚ) ≤ 255 := by exact_mod_cast hx
    have h1 : (((x : ℚ) - 128) / 128) ^ 2 ≤ 1 := by
      rw [div_pow, div_le_one (by norm_num : (0 : ℚ) < 128 ^ 2)]
      nlinarith [mul_nonneg hx0 (sub_nonneg.mpr hx255)]
    have h2 := ih fun s hs => hB s (by simp [hs])
    simp only [List.length_cons]
    push_cast
    linarith

theorem meanSquare_nonneg (L : List ℕ) : 0 ≤ meanSquare L :=
  div_nonneg (sumSquares_nonneg L) (Nat.cast_nonneg _)

theorem meanSquare_le_one (L : List ℕ) (hL : L ≠ []) (hB : ∀ s ∈ L, s ≤ 255) :
    meanSquare L ≤ 1 := by
  unfold meanSquare
  rw [div_le_one (by exact_mod_cast List.length_pos.mpr hL)]
  exact sumSquares_le_length L hB

theorem computeRms_nonneg (L : List ℕ) : 0 ≤ computeRms L := Real.sqrt_nonneg _

theorem computeRms_le_one (L : List ℕ) (hL : L ≠ []) (hB : ∀ s ∈ L, s ≤ 255) :
    computeRms L ≤ 1 := by
  unfold computeRms
  rw [show (1:ℝ) = Real.sqrt 1 by rw [Real.sqrt_one]]
  apply Real.sqrt_le_sqrt
  exact_mod_cast meanSquare_le_one L hL hB

theorem sumSquares_replicate_128 (n : ℕ) : sumSquares (List.replicate n 128) = 0 := by
  induction n with
  | zero => rfl
  | succ k ih =>
    rw [List.replicate_succ, sumSquares_cons, ih]
    norm_num

theorem computeRms_replicate_128 (n : ℕ) : computeRms (List.replicate n 128) = 0 := by
  unfold computeRms meanSquare
  rw [sumSquares_replicate_128]
  norm_num

theorem altWave_length (k : ℕ) : (altWave k).length = 2 * k := by
  induction k with
  | zero => rfl
  | succ n ih =>
    rw [altWave]
    simp only [List.length_cons, ih]
    omega

theorem sumSquares_altWave (k : ℕ) : sumSquares (altWave k) = k * (32513 / 16384) := by
  induction k with
  | zero => simp [altWave, sumSquares]
  | succ n ih =>
    rw [altWave, sumSquares_cons, sumSquares_cons, ih]
    push_cast
    ring

theorem meanSquare_altWave (k : ℕ) (hk : 0 < k) :
    meanSquare (altWave k) = 32513 / 32768 := by
  unfold meanSquare
  rw [sumSquares_altWave, altWave_length]
  have hk' : (k : ℚ) ≠ 0 := Nat.cast_ne_zero.mpr (by omega)
  push_cast
  field_simp
  ring

theorem computeRms_altWave_bounds (k : ℕ) (hk : 0 < k) :
    99 / 100 ≤ computeRms (altWave k) ∧ computeRms (altWave k) ≤ 1 := by
  unfold computeRms
  rw [meanSquare_altWave k hk]
  constructor
  · rw [show (((32513 / 32768 : ℚ)) : ℝ) = 32513 / 32768 by norm_num]
    rw [Real.le_sqrt (by norm_num) (by norm_num)]
    norm_num
  · rw [show (1:ℝ) = Real.sqrt 1 by rw [Real.sqrt_one]]
    apply Real.sqrt_le_sqrt
    norm_num

/-- C3: on any non-empty 8-bit waveform, `computeLoudness` (`computeRms`,
which maps each sample `s` to `(s - 128) / 128` and takes the
root-mean-square) returns a value in `[0, 1]`; on a waveform whose samples
are all 128 it returns exactly 0; on an alternating 0/255 waveform it
returns a value in `[99/100, 1]`, close to 1. -/
theorem computeRms_spec (L : List ℕ) (n k : ℕ) (hL : L ≠ [])
    (hB : ∀ s ∈ L, s ≤ 255) (hk : 0 < k) :
    (0 ≤ computeRms L ∧ computeRms L ≤ 1)
    ∧ computeRms (List.replicate n 128) = 0
    ∧ (99 / 100 ≤ computeRms (altWave k) ∧ computeRms (altWave k) ≤ 1) :=
  ⟨⟨computeRms_nonneg L, computeRms_le_one L hL hB⟩,
    computeRms_replicate_128 n, computeRms_altWave_bounds k hk⟩

/-- Witness for C3 at `waveform = [0, 255]`, `n = 1`, `k = 1`. -/
theorem computeRms_spec_witness :
    (0 ≤ computeRms [0, 255] ∧ computeRms [0, 255] ≤ 1)
    ∧ computeRms (List.replicate 1 128) = 0
    ∧ (99 / 100 ≤ computeRms (altWave 1) ∧ computeRms (altWave 1) ≤ 1) :=
  computeRms_spec [0, 255] 1 1 (by simp) (by decide) (by norm_num)

/-- C9: for every non-empty waveform, `computeRms` divides by a nonzero
denominator (the sample count) and returns a well-defined non-negative
value; the denominator is zero exactly on the empty waveform. -/
theorem computeRms_denominator (L M : List ℕ) (hL : L ≠ []) :
    ((L.length : ℚ) ≠ 0 ∧ 0 ≤ computeRms L)
    ∧ ((M.length : ℚ) = 0 ↔ M = []) := by
  refine ⟨⟨?_, computeRms_nonneg L⟩, ?_⟩
  · exact_mod_cast (List.length_pos.mpr hL).ne'
  · rw [Nat.cast_eq_zero, List.length_eq_zero]

/-- Witness for C9 at `L = [7]`, `M = []`. -/
theorem computeRms_denominator_witness :
    ((([7] : List ℕ).length : ℚ) ≠ 0 ∧ 0 ≤ computeRms [7])
    ∧ ((([] : List ℕ).length : ℚ) = 0 ↔ ([] : List ℕ) = []) :=
  computeRms_denominator [7] [] (by norm_num)

/-! ## Hash determinism and range -/

/-- C10: `hash01` is a pure deterministic function of its numeric seed:
the result always lies in `[0, 1)` (it is the fractional part of a real
number), and equal inputs give equal outputs (no stored randomness). -/
theorem hash01_spec (x y : ℝ) (hxy : x = y) :
    (0 ≤ hash01 x ∧ hash01 x < 1) ∧ hash01 x = hash01 y :=
  ⟨⟨Int.fract_nonneg _, Int.fract_lt_one _⟩, by rw [hxy]⟩

/-- Witness for C10 at `x = y = 1`. -/
theorem hash01_spec_witness :
    (0 ≤ hash01 1 ∧ hash01 1 < 1) ∧ hash01 1 = hash01 1 :=
  hash01_spec 1 1 rfl

/-! ## Helper lemmas: clamp bounds -/

theorem le_clamp {α : Type} [LinearOrder α] (v lo hi : α) : lo ≤ clamp v lo hi :=
  le_max_left _ _

theorem clamp_le {α : Type} [LinearOrder α] (v lo hi : α) (h : lo ≤ hi) :
    clamp v lo hi ≤ hi :=
  max_le h (min_le_left _ _)

theorem easeFactor_mem (m : Bool) (smoothing loudness : ℚ) :
    3 / 100 ≤ easeFactor m smoothing loudness
    ∧ easeFactor m smoothing loudness ≤ 35 / 100 := by
  unfold easeFactor
  constructor
  · have h := le_clamp (lerp 0.3 0.01 (normalizedSmoothing m smoothing) + loudness * 0.15)
      (0.03 : ℚ) 0.35
    norm_num at h ⊢
    linarith
  · have h := clamp_le (lerp 0.3 0.01 (normalizedSmoothing m smoothing) + loudness * 0.15)
      (0.03 : ℚ) 0.35 (by norm_num)
    norm_num at h ⊢
    linarith

/-! ## Configuration setters -/

/-- C7 counterexample: `setRadialScatter(-1)` stores the invalid negative
multiplier `-1` verbatim — it is not clamped to any valid (non-negative)
bound — and likewise `setSensitivity(-5)` stores `-5`. -/
theorem setters_no_clamp_counterexample :
    (setRadialScatter defaultConfig (-1)).radialScatterMultiplier = -1
    ∧ (setRadialScatter defaultConfig (-1)).radialScatterMultiplier < 0
    ∧ (setSensitivity defaultConfig (-5)).sensitivity = -5
    ∧ (setSensitivity defaultConfig (-5)).sensitivity < 0 :=
  ⟨rfl, by norm_num [setRadialScatter], rfl, by norm_num [setSensitivity]⟩

/-- C7 amended: every setter (`setSensitivity`, `setSmoothing`,
`setIdleSpeed`, `setRadialScatter`, `setTangentialScatter`) stores the
given value verbatim — no validation and no clamping happens at set time,
and no error is ever raised (the setters are total). Only `smoothing` is
normalized downstream at its point of use: for every stored smoothing
value, `normalizedSmoothing` lies in `[0, 1]` and the resulting per-tick
ease factor lies in `[0.03, 0.35]`. -/
theorem setters_store_verbatim (c : Config) (v loud : ℚ) (m : Bool) :
    (setSensitivity c v).sensitivity = v
    ∧ (setSmoothing c v).smoothing = v
    ∧ (setIdleSpeed c v).idleSpeed = v
    ∧ (setRadialScatter c v).radialScatterMultiplier = v
    ∧ (setTangentialScatter c v).tangentialScatterMultiplier = v
    ∧ (0 ≤ normalizedSmoothing m (setSmoothing c v).smoothing
        ∧ normalizedSmoothing m (setSmoothing c v).smoothing ≤ 1)
    ∧ (3 / 100 ≤ easeFactor m (setSmoothing c v).smoothing loud
        ∧ easeFactor m (setSmoothing c v).smoothing loud ≤ 35 / 100) := by
  refine ⟨rfl, rfl, rfl, rfl, rfl, ⟨?_, ?_⟩, easeFactor_mem m _ loud⟩
  · unfold normalizedSmoothing
    have h1 := le_clamp ((setSmoothing c v).smoothing / 3) (0 : ℚ) 1
    have h2 : (0 : ℚ) ≤ (if m then 0.7 else 1) := by split <;> norm_num
    exact mul_nonneg h1 h2
  · unfold normalizedSmoothing
    have h1 := le_clamp ((setSmoothing c v).smoothing / 3) (0 : ℚ) 1
    have h2 := clamp_le ((setSmoothing c v).smoothing / 3) (0 : ℚ) 1 (by norm_num)
    have h3 : (if m then (0.7 : ℚ) else 1) ≤ 1 := by split <;> norm_num
    have h4 : (0 : ℚ) ≤ (if m then (0.7 : ℚ) else 1) := by split <;> norm_num
    nlinarith

/-! ## Non-monotonic timestamps and idle time -/

theorem tick_idleAnimationTime (m : Bool) (cfg : Config) (w h : ℚ)
    (f : Option (List ℕ × ℚ)) (now : ℚ) (s : ScatterState) :
    (tick m cfg w h f now s).idleAnimationTime
      = s.idleAnimationTime + (now - s.lastFrameTime) / 1000 * (if m then 1.5 else 1) :=
  rfl

/-- C6 counterexample: a tick whose timestamp `-1000` is smaller than the
stored `lastFrameTime = 0` is not a no-op: the negative delta is applied
and `idleAnimationTime` decreases. -/
theorem nonmonotonic_timestamp_counterexample :
    (-1000 : ℚ) < (initState false 0).lastFrameTime
    ∧ (tick false defaultConfig 1280 1280 none (-1000) (initState false 0)).idleAnimationTime
        < (initState false 0).idleAnimationTime := by
  constructor
  · norm_num [initState]
  · rw [tick_idleAnimationTime]
    norm_num [initState]

/-- C6 amended: the engine applies the raw delta
`(now - lastFrameTime) / 1000`; there is no clamping, so a timestamp
regression makes `idleAnimationTime` decrease (see the counterexample).
`idleAnimationTime` is non-decreasing on every tick whose timestamp is at
least the stored `lastFrameTime`, hence across every run with
non-decreasing timestamps. -/
theorem idleAnimationTime_monotone (m : Bool) (cfg : Config) (w h : ℚ)
    (f : Option (List ℕ × ℚ)) (now : ℚ) (s : ScatterState)
    (hts : s.lastFrameTime ≤ now) :
    s.idleAnimationTime ≤ (tick m cfg w h f now s).idleAnimationTime := by
  rw [tick_idleAnimationTime]
  have hd : (0 : ℚ) ≤ (now - s.lastFrameTime) / 1000 :=
    div_nonneg (sub_nonneg.mpr hts) (by norm_num)
  have hsp : (0 : ℚ) ≤ (if m then 1.5 else 1) := by split <;> norm_num
  nlinarith [mul_nonneg hd hsp]

/-- Witness for `idleAnimationTime_monotone` at a fresh engine and
timestamp 16. -/
theorem idleAnimationTime_monotone_witness :
    (initState false 0).idleAnimationTime
      ≤ (tick false defaultConfig 1280 1280 none 16 (initState false 0)).idleAnimationTime :=
  idleAnimationTime_monotone false defaultConfig 1280 1280 none 16 (initState false 0)
    (by norm_num [initState])

/-! ## Per-dot displacement blending -/

/-- C8: the dot's final radial displacement is the linear interpolation,
weighted by `audioPresence`, of the idle oscillation and the audio-driven
radial scatter; the tangential displacement carries `audioPresence` as a
factor (audio-driven only), so with `audioPresence = 0` the radial
displacement is exactly the idle oscillation and the tangential
displacement is exactly zero. -/
theorem dot_displacement_blend (m : Bool)
    (idleSpeed idleTime amp01 loudness p rMult tMult : ℝ) (i d : ℕ) (hp : p = 0) :
    radialScatter m idleSpeed idleTime amp01 loudness p rMult i d
      = lerp (idleRadialOffset m idleSpeed idleTime i d)
          (audioRadialScatter m amp01 loudness p rMult i d) p
    ∧ tangentialScatter m amp01 loudness p tMult i d
      = (hash01 ((i : ℝ) * 97.31 + (d : ℝ) * 31.77) - 0.5)
          * (tangentialScatterBase m amp01 loudness * p * tMult)
    ∧ radialScatter m idleSpeed idleTime amp01 loudness p rMult i d
        = idleRadialOffset m idleSpeed idleTime i d
    ∧ tangentialScatter m amp01 loudness p tMult i d = 0 := by
  refine ⟨rfl, rfl, ?_, ?_⟩
  · subst hp
    unfold radialScatter lerp
    ring
  · subst hp
    unfold tangentialScatter tangentialScatterAmount
    ring

/-- Witness for C8 at concrete inputs with `audioPresence = 0`. -/
theorem dot_displacement_blend_witness :
    radialScatter false 1 2 (1 / 2) (1 / 4) 0 1 3 5
      = lerp (idleRadialOffset false 1 2 3 5)
          (audioRadialScatter false (1 / 2) (1 / 4) 0 1 3 5) 0
    ∧ tangentialScatter false (1 / 2) (1 / 4) 0 (2 / 5) 3 5
      = (hash01 ((3 : ℝ) * 97.31 + (5 : ℝ) * 31.77) - 0.5)
          * (tangentialScatterBase false (1 / 2) (1 / 4) * 0 * (2 / 5))
    ∧ radialScatter false 1 2 (1 / 2) (1 / 4) 0 1 3 5
        = idleRadialOffset false 1 2 3 5
    ∧ tangentialScatter false (1 / 2) (1 / 4) 0 (2 / 5) 3 5 = 0 :=
  dot_displacement_blend false 1 2 (1 / 2) (1 / 4) 0 1 (2 / 5) 3 5 rfl

/-! ## Presence hysteresis decay -/

theorem hasAudioRaw_silent (m : Bool) : hasAudioRaw m none 0 = false := by
  have h : ¬ (audioThreshold m < 0) := by cases m <;> norm_num [audioThreshold]
  unfold hasAudioRaw
  rw [decide_eq_false h]
  rfl

/-- The raw audio-detection condition is also false on a present-but-quiet
snapshot: the all-128 (perfectly centered) one-sample waveform with
loudness 0. `|128/255 - 0.5| = 1/510` is below `timeVariationThreshold`. -/
theorem hasAudioRaw_quiet128 : hasAudioRaw false (some [128]) 0 = false := by
  have hA : decide (audioThreshold false < (0 : ℚ)) = false :=
    decide_eq_false (by norm_num [audioThreshold])
  have hT : decide (timeVariationThreshold false
      < |((128 : ℕ) : ℚ) / 255 - 0.5|) = false := by
    apply decide_eq_false
    have habs : |((128 : ℕ) : ℚ) / 255 - 0.5| = 1 / 510 := by
      rw [abs_of_nonneg (by norm_num)]
      norm_num
    rw [habs]
    norm_num [timeVariationThreshold]
  show (decide (audioThreshold false < (0 : ℚ)) ||
    (decide (0 < ([128] : List ℕ).length) &&
      (decide (timeVariationThreshold false < |((128 : ℕ) : ℚ) / 255 - 0.5|) || false)))
    = false
  rw [hA, hT]
  rfl

/-- On any tick whose inputs leave `hasAudioRaw` false, the presence update
is multiplication by `1 - exitSpeed` (the target is 0 and, from a
non-negative presence, the exit rate is selected). -/
theorem presenceStep_quiet (m : Bool) (time : Option (List ℕ)) (loud p : ℚ)
    (hp : 0 ≤ p) (hq : hasAudioRaw m time loud = false) :
    presenceStep m time loud p = p * (1 - (if m then (0.08 : ℚ) else 0.04)) := by
  simp only [presenceStep, hq, Bool.false_eq_true, if_false]
  rw [if_neg (not_lt.mpr hp)]
  unfold lerp
  ring

theorem runFrom_audioPresence (m : Bool) (cfg : Config) (w h : ℚ)
    (inputs : ℕ → Option (List ℕ × ℚ)) (ts : ℕ → ℚ) (s0 : ScatterState)
    (h0 : s0.audioPresence = 1)
    (hquiet : ∀ k, hasAudioRaw m ((inputs k).map Prod.fst) (loudnessOf (inputs k))
      = false)
    (n : ℕ) :
    (runFrom m cfg w h inputs ts s0 n).audioPresence
      = (1 - (if m then (0.08 : ℚ) else 0.04)) ^ n := by
  induction n with
  | zero => simpa [runFrom] using h0
  | succ k ih =>
    have hbase : (0 : ℚ) ≤ 1 - (if m then (0.08 : ℚ) else 0.04) := by
      cases m <;> norm_num
    have hstep : runFrom m cfg w h inputs ts s0 (k + 1)
        = tick m cfg w h (inputs k) (ts k) (runFrom m cfg w h inputs ts s0 k) := rfl
    have hta : (tick m cfg w h (inputs k) (ts k)
          (runFrom m cfg w h inputs ts s0 k)).audioPresence
        = presenceStep m ((inputs k).map Prod.fst) (loudnessOf (inputs k))
          (runFrom m cfg w h inputs ts s0 k).audioPresence := rfl
    rw [hstep, hta, ih,
      presenceStep_quiet m _ _ _ (pow_nonneg hbase k) (hquiet k)]
    ring

/-- C4: once `audioPresence` has reached 1.0 and the raw audio-detection
condition is false on every subsequent tick — whatever the per-tick
feature snapshots are: absent, or present but quiet (e.g. a centered
waveform with loudness 0) — `audioPresence` decreases strictly on each
subsequent tick, stays strictly positive and at most 1 (never overshooting
below 0 or above 1), and asymptotically approaches 0: it eventually drops
below every positive `ε`. -/
theorem audioPresence_decay (m : Bool) (cfg : Config) (w h : ℚ)
    (inputs : ℕ → Option (List ℕ × ℚ)) (ts : ℕ → ℚ)
    (s0 : ScatterState) (n : ℕ) (ε : ℚ) (h0 : s0.audioPresence = 1) (hε : 0 < ε)
    (hquiet : ∀ k, hasAudioRaw m ((inputs k).map Prod.fst) (loudnessOf (inputs k))
      = false) :
    ((runFrom m cfg w h inputs ts s0 (n + 1)).audioPresence
        < (runFrom m cfg w h inputs ts s0 n).audioPresence)
    ∧ (0 < (runFrom m cfg w h inputs ts s0 n).audioPresence
        ∧ (runFrom m cfg w h inputs ts s0 n).audioPresence ≤ 1)
    ∧ (∃ N, (runFrom m cfg w h inputs ts s0 N).audioPresence < ε) := by
  have hq0 : (0 : ℚ) < 1 - (if m then (0.08 : ℚ) else 0.04) := by cases m <;> norm_num
  have hq1 : 1 - (if m then (0.08 : ℚ) else 0.04) < 1 := by cases m <;> norm_num
  refine ⟨?_, ⟨?_, ?_⟩, ?_⟩
  · rw [runFrom_audioPresence m cfg w h inputs ts s0 h0 hquiet (n + 1),
      runFrom_audioPresence m cfg w h inputs ts s0 h0 hquiet n]
    exact pow_lt_pow_right_of_lt_one₀ hq0 hq1 (Nat.lt_succ_self n)
  · rw [runFrom_audioPresence m cfg w h inputs ts s0 h0 hquiet n]
    exact pow_pos hq0 n
  · rw [runFrom_audioPresence m cfg w h inputs ts s0 h0 hquiet n]
    exact pow_le_one₀ (le_of_lt hq0) (le_of_lt hq1)
  · obtain ⟨N, hN⟩ := exists_pow_lt_of_lt_one hε hq1
    refine ⟨N, ?_⟩
    rw [runFrom_audioPresence m cfg w h inputs ts s0 h0 hquiet N]
    exact hN

/-- Witness for C4: a desktop engine whose presence has reached 1, fed on
every tick a present-but-quiet snapshot (the centered waveform `[128]`
with loudness 0, so `hasAudioRaw` is false with the audio source still
attached), timestamps `n`, step 0, `ε = 1/2`. -/
theorem audioPresence_decay_witness :
    ((runFrom false defaultConfig 1280 1280 (fun _ => some ([128], 0))
        (fun n => (n : ℚ)) { initState false 0 with audioPresence := 1 }
        (0 + 1)).audioPresence
      < (runFrom false defaultConfig 1280 1280 (fun _ => some ([128], 0))
        (fun n => (n : ℚ)) { initState false 0 with audioPresence := 1 }
        0).audioPresence)
    ∧ (0 < (runFrom false defaultConfig 1280 1280 (fun _ => some ([128], 0))
        (fun n => (n : ℚ)) { initState false 0 with audioPresence := 1 }
        0).audioPresence
      ∧ (runFrom false defaultConfig 1280 1280 (fun _ => some ([128], 0))
        (fun n => (n : ℚ)) { initState false 0 with audioPresence := 1 }
        0).audioPresence ≤ 1)
    ∧ (∃ N, (runFrom false defaultConfig 1280 1280 (fun _ => some ([128], 0))
        (fun n => (n : ℚ)) { initState false 0 with audioPresence := 1 }
        N).audioPresence < 1 / 2) :=
  audioPresence_decay false defaultConfig 1280 1280 (fun _ => some ([128], 0))
    (fun n => (n : ℚ)) { initState false 0 with audioPresence := 1 } 0 (1 / 2)
    rfl (by norm_num) (fun _ => hasAudioRaw_quiet128)

/-! ## State invariants and amplitude bounds -/

theorem tick_segments (m : Bool) (cfg : Config) (w h : ℚ)
    (f : Option (List ℕ × ℚ)) (now : ℚ) (s : ScatterState) :
    (tick m cfg w h f now s).segments = s.segments :=
  rfl

theorem tick_audioPresence (m : Bool) (cfg : Config) (w h : ℚ)
    (f : Option (List ℕ × ℚ)) (now : ℚ) (s : ScatterState) :
    (tick m cfg w h f now s).audioPresence
      = presenceStep m (f.map Prod.fst) (loudnessOf f) s.audioPresence :=
  rfl

theorem tick_lineAmplitude (m : Bool) (cfg : Config) (w h : ℚ)
    (f : Option (List ℕ × ℚ)) (now : ℚ) (s : ScatterState) :
    (tick m cfg w h f now s).lineAmplitude
      = (List.range s.segments).map fun i =>
          lerp (s.lineAmplitude.getD i 0)
            (ampTarget m cfg (scatterMaxAmplitude m w h)
              (presenceStep m (f.map Prod.fst) (loudnessOf f) s.audioPresence)
              (f.map Prod.fst) s.segments i)
            (easeFactor m cfg.smoothing (loudnessOf f)) :=
  rfl

theorem tick_lineAmplitude_length (m : Bool) (cfg : Config) (w h : ℚ)
    (f : Option (List ℕ × ℚ)) (now : ℚ) (s : ScatterState) :
    (tick m cfg w h f now s).lineAmplitude.length = s.segments := by
  rw [tick_lineAmplitude, List.length_map, List.length_range]

theorem tick_lineAmplitude_getD0 (m : Bool) (cfg : Config) (w h : ℚ)
    (f : Option (List ℕ × ℚ)) (now : ℚ) (s : ScatterState) (hseg : 0 < s.segments) :
    (tick m cfg w h f now s).lineAmplitude.getD 0 0
      = lerp (s.lineAmplitude.getD 0 0)
          (ampTarget m cfg (scatterMaxAmplitude m w h)
            (presenceStep m (f.map Prod.fst) (loudnessOf f) s.audioPresence)
            (f.map Prod.fst) s.segments 0)
          (easeFactor m cfg.smoothing (loudnessOf f)) := by
  rw [tick_lineAmplitude]
  obtain ⟨k, hk⟩ : ∃ k, s.segments = k + 1 := ⟨s.segments - 1, by omega⟩
  rw [hk, List.range_succ_eq_map, List.map_cons, List.getD_cons_zero]

theorem hasAudioRaw_loud : hasAudioRaw false (some [0]) 1 = true := by
  unfold hasAudioRaw
  rw [decide_eq_true (show audioThreshold false < 1 by norm_num [audioThreshold])]
  rfl

theorem presenceStep_loud (p : ℚ) (hp : p < 1) :
    presenceStep false (some [0]) 1 p = lerp p 1 (0.08 : ℚ) := by
  simp [presenceStep, hasAudioRaw_loud, hp]

theorem loudRun_trace (n : ℕ) :
    (loudRun n).segments = 140
    ∧ (loudRun n).lineAmplitude.length = 140
    ∧ (loudRun n).audioPresence = loudPres n
    ∧ (loudRun n).lineAmplitude.getD 0 0 = loudAmp n := by
  induction n with
  | zero =>
    refine ⟨rfl, rfl, rfl, ?_⟩
    show (List.replicate 140 (0 : ℚ)).getD 0 0 = loudAmp 0
    rfl
  | succ k ih =>
    obtain ⟨hseg, hlen, hpres, hamp⟩ := ih
    have hstep : loudRun (k + 1)
        = tick false defaultConfig 1280 1280 (some ([0], 1)) (k : ℚ) (loudRun k) := rfl
    refine ⟨?_, ?_, ?_, ?_⟩
    · rw [hstep, tick_segments, hseg]
    · rw [hstep, tick_lineAmplitude_length, hseg]
    · rw [hstep, tick_audioPresence, hpres]
      rfl
    · rw [hstep, tick_lineAmplitude_getD0 _ _ _ _ _ _ _ (by rw [hseg]; norm_num),
        hamp, hpres, hseg]
      rfl

/-- The concrete evaluation behind the C5 counterexample: on `loudRun`,
after 4 ticks `audioPresence` is `110784/390625 ≈ 0.28` and
`lineAmplitude[0]` is `-2322429825184/30517578125 ≈ -76.1`, while
`maxAmplitude = 63`. -/
theorem loudAmp_four :
    loudAmp 4 = -2322429825184 / 30517578125 := by
  have hmax : scatterMaxAmplitude false 1280 1280 = 63 := by
    norm_num [scatterMaxAmplitude]
  have hE : easeFactor false defaultConfig.smoothing 1 = 118 / 375 := by
    norm_num [easeFactor, normalizedSmoothing, clamp, lerp, defaultConfig,
      min_def, max_def]
  have hT : ∀ p : ℚ,
      ampTarget false defaultConfig (scatterMaxAmplitude false 1280 1280) p
        (some [0]) 140 0 = -(2268 / 5) * p := by
    intro p
    rw [hmax]
    norm_num [ampTarget, sampleAt, defaultConfig]
  have hP1 : loudPres 1 = 2 / 25 := by
    rw [show loudPres 1 = presenceStep false (some [0]) 1 (loudPres 0) from rfl,
      show loudPres 0 = 0 from rfl, presenceStep_loud 0 (by norm_num)]
    norm_num [lerp]
  have hP2 : loudPres 2 = 96 / 625 := by
    rw [show loudPres 2 = presenceStep false (some [0]) 1 (loudPres 1) from rfl,
      hP1, presenceStep_loud _ (by norm_num)]
    norm_num [lerp]
  have hP3 : loudPres 3 = 3458 / 15625 := by
    rw [show loudPres 3 = presenceStep false (some [0]) 1 (loudPres 2) from rfl,
      hP2, presenceStep_loud _ (by norm_num)]
    norm_num [lerp]
  have hP4 : loudPres 4 = 110784 / 390625 := by
    rw [show loudPres 4 = presenceStep false (some [0]) 1 (loudPres 3) from rfl,
      hP3, presenceStep_loud _ (by norm_num)]
    norm_num [lerp]
  have hA1 : loudAmp 1 = -178416 / 15625 := by
    rw [show loudAmp 1 = lerp (loudAmp 0)
        (ampTarget false defaultConfig (scatterMaxAmplitude false 1280 1280)
          (loudPres 1) (some [0]) 140 0)
        (easeFactor false defaultConfig.smoothing 1) from rfl,
      show loudAmp 0 = 0 from rfl, hT, hP1, hE]
    norm_num [lerp]
  have hA2 : loudAmp 2 = -58104144 / 1953125 := by
    rw [show loudAmp 2 = lerp (loudAmp 1)
        (ampTarget false defaultConfig (scatterMaxAmplitude false 1280 1280)
          (loudPres 2) (some [0]) 140 0)
        (easeFactor false defaultConfig.smoothing 1) from rfl,
      hA1, hT, hP2, hE]
    norm_num [lerp]
  have hA3 : loudAmp 3 = -12689619936 / 244140625 := by
    rw [show loudAmp 3 = lerp (loudAmp 2)
        (ampTarget false defaultConfig (scatterMaxAmplitude false 1280 1280)
          (loudPres 3) (some [0]) 140 0)
        (easeFactor false defaultConfig.smoothing 1) from rfl,
      hA2, hT, hP3, hE]
    norm_num [lerp]
  rw [show loudAmp 4 = lerp (loudAmp 3)
      (ampTarget false defaultConfig (scatterMaxAmplitude false 1280 1280)
        (loudPres 4) (some [0]) 140 0)
      (easeFactor false defaultConfig.smoothing 1) from rfl,
    hA3, hT, hP4, hE]
  norm_num [lerp]

/-- C5 counterexample: on a desktop engine with the default configuration
on a 1280×1280 canvas, fed the waveform `[0]` with loudness 1 each tick,
after 4 ticks the entry `lineAmplitude[0]` — an actual member of the
`lineAmplitude` state — exceeds `maxAmplitude = 63` in absolute value. -/
theorem lineAmplitude_exceeds_maxAmplitude :
    (loudRun 4).lineAmplitude.getD 0 0 ∈ (loudRun 4).lineAmplitude
    ∧ scatterMaxAmplitude false 1280 1280 < |(loudRun 4).lineAmplitude.getD 0 0| := by
  obtain ⟨hseg, hlen, hpres, hamp⟩ := loudRun_trace 4
  constructor
  · have h0 : 0 < (loudRun 4).lineAmplitude.length := by rw [hlen]; norm_num
    rw [List.getD_eq_getElem _ _ h0]
    exact List.getElem_mem h0
  · rw [hamp, loudAmp_four]
    have habs : |(-2322429825184 / 30517578125 : ℚ)| = 2322429825184 / 30517578125 := by
      rw [abs_of_neg (by norm_num)]
      norm_num
    rw [habs]
    norm_num [scatterMaxAmplitude]

theorem lerp_mem_unit (p t e : ℚ) (hp0 : 0 ≤ p) (hp1 : p ≤ 1) (ht0 : 0 ≤ t)
    (ht1 : t ≤ 1) (he0 : 0 ≤ e) (he1 : e ≤ 1) :
    0 ≤ lerp p t e ∧ lerp p t e ≤ 1 := by
  unfold lerp
  constructor <;> nlinarith

theorem presenceStep_mem_unit (m : Bool) (time : Option (List ℕ)) (loud p : ℚ)
    (h0 : 0 ≤ p) (h1 : p ≤ 1) :
    0 ≤ presenceStep m time loud p ∧ presenceStep m time loud p ≤ 1 := by
  have h := lerp_mem_unit p (if hasAudioRaw m time loud then 1 else 0)
    (if p < (if hasAudioRaw m time loud then (1 : ℚ) else 0)
      then (if m then 0.15 else 0.08) else (if m then 0.08 else 0.04))
    h0 h1 (by split <;> norm_num) (by split <;> norm_num)
    (by split <;> split <;> split <;> norm_num)
    (by split <;> split <;> split <;> norm_num)
  exact h

theorem lerp_abs_le (a t e B : ℚ) (ha : |a| ≤ B) (ht : |t| ≤ B)
    (he0 : 0 ≤ e) (he1 : e ≤ 1) : |lerp a t e| ≤ B := by
  unfold lerp
  have hsplit : a + (t - a) * e = a * (1 - e) + t * e := by ring
  rw [hsplit]
  calc |a * (1 - e) + t * e| ≤ |a * (1 - e)| + |t * e| := abs_add _ _
    _ = |a| * (1 - e) + |t| * e := by
        rw [abs_mul, abs_mul, abs_of_nonneg (by linarith : (0 : ℚ) ≤ 1 - e),
          abs_of_nonneg he0]
    _ ≤ B := by nlinarith [abs_nonneg a, abs_nonneg t]

theorem sampleAt_mem (time : Option (List ℕ)) (seg i : ℕ)
    (htime : ∀ t, time = some t → ∀ x ∈ t, x ≤ 255) :
    0 ≤ sampleAt time seg i ∧ sampleAt time seg i ≤ 1 := by
  cases time with
  | none => norm_num [sampleAt]
  | some t =>
    rcases Nat.eq_zero_or_pos t.length with hlen | hlen
    · have hs : sampleAt (some t) seg i = 0.5 := by
        show (if 0 < t.length
          then ((t.getD (i * t.length / seg % t.length) 0 : ℕ) : ℚ) / 255 else 0.5) = 0.5
        rw [if_neg (by omega)]
      rw [hs]
      norm_num
    · have hjlt : i * t.length / seg % t.length < t.length := Nat.mod_lt _ hlen
      have heq : sampleAt (some t) seg i
          = ((t.getD (i * t.length / seg % t.length) 0 : ℕ) : ℚ) / 255 := by
        show (if 0 < t.length
          then ((t.getD (i * t.length / seg % t.length) 0 : ℕ) : ℚ) / 255 else 0.5)
          = ((t.getD (i * t.length / seg % t.length) 0 : ℕ) : ℚ) / 255
        rw [if_pos hlen]
      have hj : t.getD (i * t.length / seg % t.length) 0 ≤ 255 := by
        rw [List.getD_eq_getElem _ _ hjlt]
        exact htime t rfl _ (List.getElem_mem hjlt)
      rw [heq]
      constructor
      · positivity
      · rw [div_le_one (by norm_num)]
        exact_mod_cast hj

theorem ampTarget_abs_le (m : Bool) (cfg : Config) (A p : ℚ)
    (time : Option (List ℕ)) (seg i : ℕ)
    (hs : 0 ≤ cfg.sensitivity) (hA : 0 ≤ A) (hp0 : 0 ≤ p) (hp1 : p ≤ 1)
    (htime : ∀ t, time = some t → ∀ x ∈ t, x ≤ 255) :
    |ampTarget m cfg A p time seg i|
      ≤ cfg.sensitivity * A * (if m then 1.3 else 1) := by
  obtain ⟨hs0, hs1⟩ := sampleAt_mem time seg i htime
  have hmapped : |(sampleAt time seg i - 0.5) * 2| ≤ 1 := by
    rw [abs_mul]
    have h05 : |sampleAt time seg i - 0.5| ≤ 1 / 2 := by
      rw [abs_le]
      constructor <;> [linarith; linarith]
    rw [show |(2 : ℚ)| = 2 from by norm_num]
    linarith
  have hb0 : (0 : ℚ) ≤ (if m then 1.3 else 1) := by split <;> norm_num
  unfold ampTarget
  have habs : |(sampleAt time seg i - 0.5) * 2 * cfg.sensitivity * A * p
      * (if m then (1.3 : ℚ) else 1)|
      = |(sampleAt time seg i - 0.5) * 2| * cfg.sensitivity * A * p
        * (if m then 1.3 else 1) := by
    rw [abs_mul, abs_mul, abs_mul, abs_mul, abs_of_nonneg hs, abs_of_nonneg hA,
      abs_of_nonneg hp0, abs_of_nonneg hb0]
  rw [habs]
  nlinarith [mul_nonneg (mul_nonneg hs hA) hb0,
    mul_nonneg (mul_nonneg (mul_nonneg hs hA) hb0) hp0,
    abs_nonneg ((sampleAt time seg i - 0.5) * 2)]

theorem getD_abs_le (l : List ℚ) (i : ℕ) (B : ℚ) (hB : 0 ≤ B)
    (h : ∀ x ∈ l, |x| ≤ B) : |l.getD i 0| ≤ B := by
  rcases lt_or_ge i l.length with hlt | hge
  · rw [List.getD_eq_getElem _ _ hlt]
    exact h _ (List.getElem_mem hlt)
  · rw [List.getD_eq_default _ _ hge]
    simpa using hB

theorem scatterMaxAmplitude_nonneg (m : Bool) (w h : ℚ) (hw : 0 ≤ w) (_hh : 0 ≤ h) :
    0 ≤ scatterMaxAmplitude m w h := by
  unfold scatterMaxAmplitude
  have h1 : (0 : ℚ) ≤ max w h := le_max_of_le_left hw
  have h2 : (0 : ℚ) ≤ (if m then 0.4 else 0.25) := by split <;> norm_num
  exact mul_nonneg (mul_nonneg (mul_nonneg (mul_nonneg h1 h2) (by norm_num))
    (by norm_num)) (by norm_num)

/-- C5 amended: across every sequence of ticks from a freshly constructed
engine (non-negative canvas, non-negative sensitivity, 8-bit waveform
buffers), `audioPresence` stays in `[0, 1]` and the per-tick ease factor
stays in `[0.03, 0.35] ⊆ [0, 1]`, as claimed; but each `lineAmplitude`
entry is only bounded by
`sensitivity * maxAmplitude * mobileSensitivityBoost` in absolute value,
not by `maxAmplitude` (with the default sensitivity 7.2 the entries can
exceed `maxAmplitude`, see the counterexample). -/
theorem engine_invariants (m : Bool) (cfg : Config) (w h : ℚ)
    (inputs : ℕ → Option (List ℕ × ℚ)) (ts : ℕ → ℚ) (t0 : ℚ) (n : ℕ) (sm loud : ℚ)
    (hs : 0 ≤ cfg.sensitivity) (hw : 0 ≤ w) (hh : 0 ≤ h)
    (hin : ∀ k t l, inputs k = some (t, l) → ∀ x ∈ t, x ≤ 255) :
    (0 ≤ (engineRun m cfg w h inputs ts t0 n).audioPresence
      ∧ (engineRun m cfg w h inputs ts t0 n).audioPresence ≤ 1)
    ∧ (∀ a ∈ (engineRun m cfg w h inputs ts t0 n).lineAmplitude,
        |a| ≤ cfg.sensitivity * scatterMaxAmplitude m w h * (if m then 1.3 else 1))
    ∧ (3 / 100 ≤ easeFactor m sm loud ∧ easeFactor m sm loud ≤ 35 / 100
      ∧ 0 ≤ easeFactor m sm loud ∧ easeFactor m sm loud ≤ 1) := by
  have hAmax : 0 ≤ scatterMaxAmplitude m w h := scatterMaxAmplitude_nonneg m w h hw hh
  have hb0 : (0 : ℚ) ≤ (if m then 1.3 else 1) := by split <;> norm_num
  have hB : 0 ≤ cfg.sensitivity * scatterMaxAmplitude m w h * (if m then 1.3 else 1) :=
    mul_nonneg (mul_nonneg hs hAmax) hb0
  have hease := easeFactor_mem m sm loud
  refine ?_
  induction n with
  | zero =>
    refine ⟨⟨le_refl 0, by exact zero_le_one⟩, ?_,
      hease.1, hease.2, by linarith [hease.1], by linarith [hease.2]⟩
    intro a ha
    have ha0 : a = 0 := by
      have : a ∈ List.replicate (if m then 100 else 140) (0 : ℚ) := by
        simpa [engineRun, initState] using ha
      exact (List.eq_of_mem_replicate this)
    rw [ha0]
    simpa using hB
  | succ k ih =>
    obtain ⟨⟨hp0, hp1⟩, hamp, _⟩ := ih
    have hrun : engineRun m cfg w h inputs ts t0 (k + 1)
        = tick m cfg w h (inputs k) (ts k) (engineRun m cfg w h inputs ts t0 k) := rfl
    have htime : ∀ t, (inputs k).map Prod.fst = some t → ∀ x ∈ t, x ≤ 255 := by
      intro t ht
      cases hik : inputs k with
      | none => rw [hik] at ht; exact absurd ht (by simp)
      | some pair =>
        obtain ⟨t1, l1⟩ := pair
        rw [hik] at ht
        simp only [Option.map_some'] at ht
        obtain rfl := Option.some.inj ht
        exact fun x hx => hin k t1 l1 hik x hx
    refine ⟨?_, ?_, hease.1, hease.2, by linarith [hease.1], by linarith [hease.2]⟩
    · rw [hrun, tick_audioPresence]
      exact presenceStep_mem_unit m _ _ _ hp0 hp1
    · rw [hrun, tick_lineAmplitude]
      intro a ha
      obtain ⟨i, hi, rfl⟩ := List.mem_map.mp ha
      have hpres := presenceStep_mem_unit m ((inputs k).map Prod.fst)
        (loudnessOf (inputs k)) _ hp0 hp1
      apply lerp_abs_le
      · exact getD_abs_le _ _ _ hB hamp
      · exact ampTarget_abs_le m cfg _ _ _ _ _ hs hAmax hpres.1 hpres.2 htime
      · linarith [(easeFactor_mem m cfg.smoothing (loudnessOf (inputs k))).1]
      · linarith [(easeFactor_mem m cfg.smoothing (loudnessOf (inputs k))).2]

/-- Witness for `engine_invariants`: a fresh desktop engine on a
1280×1280 canvas with the default configuration, no audio attached,
after 0 ticks. -/
theorem engine_invariants_witness :
    (0 ≤ (engineRun false defaultConfig 1280 1280 (fun _ => none)
        (fun n => (n : ℚ)) 0 0).audioPresence
      ∧ (engineRun false defaultConfig 1280 1280 (fun _ => none)
        (fun n => (n : ℚ)) 0 0).audioPresence ≤ 1)
    ∧ (∀ a ∈ (engineRun false defaultConfig 1280 1280 (fun _ => none)
        (fun n => (n : ℚ)) 0 0).lineAmplitude,
        |a| ≤ defaultConfig.sensitivity * scatterMaxAmplitude false 1280 1280
          * (if false then 1.3 else 1))
    ∧ (3 / 100 ≤ easeFactor false (7 / 5) 0 ∧ easeFactor false (7 / 5) 0 ≤ 35 / 100
      ∧ 0 ≤ easeFactor false (7 / 5) 0 ∧ easeFactor false (7 / 5) 0 ≤ 1) :=
  engine_invariants false defaultConfig 1280 1280 (fun _ => none)
    (fun n => (n : ℚ)) 0 0 (7 / 5) 0 (by norm_num [defaultConfig]) (by norm_num)
    (by norm_num) (fun k t l hkl => absurd hkl (by simp))

end Waveform
